import Mathlib

/-!
Verification of the s3d software renderer (`src/render/mod.rs`, `src/main.rs`,
`src/window.rs`) against its natural-language specification.

Modelling conventions:
* `usize` values are modelled as `ℕ`; where the source relies on two's
  complement wraparound (`wrapping_sub`, `wrapping_neg`, the sign-bit test of
  the line rasterizer's error accumulator) we compute modulo `2 ^ 64`
  explicitly.
* `f32` values are modelled as exact rationals (`ℚ`).  The claims settled
  here are about control flow, index arithmetic and the shape of formulas,
  not about rounding, so exact arithmetic is the faithful choice for them.
  The one `f32`-specific behaviour that matters — `to_int_unchecked::<usize>`
  being undefined for values that truncate outside `[0, 2^64)` — is modelled
  by an `Option`: `none` marks undefined behaviour.
* Out-of-bounds raw-pointer reads (all the `unsafe` accesses of the source)
  are modelled with `List.get?`; a `none` result propagates as `none`
  ("undefined behaviour") through the drawing pipeline.
* Pixel writes are modelled as a trace: a list of `((x, y), color)` pairs in
  the order the source performs them (last writer wins on the real buffer,
  so the trace determines the frame).  The source steps a flat pointer by
  `±1` (one column) and `±width` (one row); the model tracks the column and
  row components separately, which agrees with the flat offset
  `y * width + x` whenever the touched pixels stay inside the buffer.
-/

/-- Number of values of the 64-bit `usize` type. -/
def U64 : ℕ := 2 ^ 64

/-- Wrapping 64-bit addition (`usize::wrapping_add`). -/
def wadd (a b : ℕ) : ℕ := (a + b) % U64

/-- Wrapping 64-bit subtraction (`usize::wrapping_sub`). -/
def wsub (a b : ℕ) : ℕ := (a + U64 - b % U64) % U64

/-- Sign test used by `draw_line_unchecked`:
`f < std::mem::transmute(isize::MIN)` compares the accumulator against
`2 ^ 63`, i.e. it holds exactly when the top (sign) bit of `f` is clear. -/
def signBitClear (f : ℕ) : Prop := f < 2 ^ 63

instance (f : ℕ) : Decidable (signBitClear f) := by
  unfold signBitClear; infer_instance

/--
X-major inner loop of `RenderContext::draw_line_unchecked` (src/render/mod.rs
lines 148-163).  Arguments: `ie`/`ine` the wrapped error increments, `sx`/`sy`
the pixel steps (the source steps a flat pointer by `±1` and `±width`; the
model steps the column `x` and the row `y`), the remaining major-axis step
count `d` (the source's mutable `dx`), the current pixel `(x, y)` and the
wrapped error accumulator `f`.  Returns the pixels written by the remaining
iterations, in write order.  Note that the source advances the minor axis
*after* writing the pixel of the current iteration.
-/
def lineStepsX (ie ine : ℕ) (sx sy : ℤ) : ℕ → ℤ → ℤ → ℕ → List (ℤ × ℤ)
  | 0, _, _, _ => []
  | d + 1, x, y, f =>
    (x + sx, y) ::
      (if signBitClear f then
        lineStepsX ie ine sx sy d (x + sx) (y + sy) (wadd f ine)
      else
        lineStepsX ie ine sx sy d (x + sx) y (wadd f ie))

/-- Y-major inner loop of `RenderContext::draw_line_unchecked` (src/render/mod.rs
lines 164-180), symmetric to `lineStepsX`. -/
def lineStepsY (ie ine : ℕ) (sx sy : ℤ) : ℕ → ℤ → ℤ → ℕ → List (ℤ × ℤ)
  | 0, _, _, _ => []
  | d + 1, x, y, f =>
    (x, y + sy) ::
      (if signBitClear f then
        lineStepsY ie ine sx sy d (x + sx) (y + sy) (wadd f ine)
      else
        lineStepsY ie ine sx sy d x (y + sy) (wadd f ie))

/--
`RenderContext::draw_line_unchecked` (src/render/mod.rs lines 133-182),
as the ordered list of pixels it writes.  The source first writes the pixel
at `(x1, y1)`, then runs the major-axis loop.  `dx`, `dy` are the absolute
coordinate differences (exact on `ℕ`, as in the source), `sx`, `sy` the step
signs (`1` / `wrapping_neg` of the column and row strides in the source).
-/
def drawLinePixels (x1 y1 x2 y2 : ℕ) : List (ℤ × ℤ) :=
  let dy : ℕ := if y2 < y1 then y1 - y2 else y2 - y1
  let sy : ℤ := if y2 < y1 then -1 else 1
  let dx : ℕ := if x2 < x1 then x1 - x2 else x2 - x1
  let sx : ℤ := if x2 < x1 then -1 else 1
  ((x1 : ℤ), (y1 : ℤ)) ::
    (if dy ≤ dx then
      lineStepsX (2 * dy % U64) (wsub (2 * dy % U64) (2 * dx % U64)) sx sy
        dx (x1 : ℤ) (y1 : ℤ) (wsub (2 * dy % U64) dx)
    else
      lineStepsY (2 * dx % U64) (wsub (2 * dx % U64) (2 * dy % U64)) sx sy
        dy (x1 : ℤ) (y1 : ℤ) (wsub (2 * dx % U64) dy))

/-- Number of values of the 32-bit `u32` type. -/
def U32 : ℕ := 2 ^ 32

/-- Vector of three rationals, modelling the source's `Vec3f` (`f32` fields). -/
structure Vec3q where
  x : ℚ
  y : ℚ
  z : ℚ
deriving DecidableEq

/-- Dot product; the source spells it with the overloaded `^` operator
(`cam_loc.location ^ cam_right` and friends). -/
def dotq (a b : Vec3q) : ℚ := a.x * b.x + a.y * b.y + a.z * b.z

/--
The data `RenderContext::draw` captures before walking the faces
(src/render/mod.rs lines 209-231): the camera basis and location snapshot,
the projection parameters, the camera extent and the target surface size.
-/
structure Ctx where
  right : Vec3q
  up : Vec3q
  dir : Vec3q
  loc : Vec3q
  near : ℚ
  far : ℚ
  sizeX : ℚ
  sizeY : ℚ
  extentX : ℕ
  extentY : ℕ
  width : ℕ
  height : ℕ
deriving DecidableEq

/-- `proj_inv_near = 1.0 / proj.near`. -/
def Ctx.invNear (C : Ctx) : ℚ := 1 / C.near

/-- `proj_inv_far = 1.0 / proj.far`. -/
def Ctx.invFar (C : Ctx) : ℚ := 1 / C.far

/-- `proj_ext_min = usize::min(extent.x, extent.y) as f32`. -/
def Ctx.extMin (C : Ctx) : ℚ := (min C.extentX C.extentY : ℕ)

/-- `proj_x_x = 2.0 * proj.near / proj.size.x * extent.y as f32 / proj_ext_min`. -/
def Ctx.projXX (C : Ctx) : ℚ := 2 * C.near / C.sizeX * (C.extentY : ℚ) / C.extMin

/-- `proj_y_y = -2.0 * proj.near / proj.size.y * extent.x as f32 / proj_ext_min`. -/
def Ctx.projYY (C : Ctx) : ℚ := -2 * C.near / C.sizeY * (C.extentX : ℚ) / C.extMin

/-- `cam_loc_right = cam_loc.location ^ cam_right`. -/
def Ctx.camLocRight (C : Ctx) : ℚ := dotq C.loc C.right

/-- `cam_loc_up = cam_loc.location ^ cam_up`. -/
def Ctx.camLocUp (C : Ctx) : ℚ := dotq C.loc C.up

/-- `cam_loc_dir = cam_loc.location ^ cam_dir`. -/
def Ctx.camLocDir (C : Ctx) : ℚ := dotq C.loc C.dir

/-- `proj_x_add = surface_width as f32 / 2.0`. -/
def Ctx.projXAdd (C : Ctx) : ℚ := (C.width : ℚ) / 2

/-- `proj_x_mul = proj_x_add * proj_x_x`. -/
def Ctx.projXMul (C : Ctx) : ℚ := C.projXAdd * C.projXX

/-- `proj_y_add = surface_height as f32 / 2.0`. -/
def Ctx.projYAdd (C : Ctx) : ℚ := (C.height : ℚ) / 2

/-- `proj_y_mul = proj_y_add * proj_y_y`. -/
def Ctx.projYMul (C : Ctx) : ℚ := C.projYAdd * C.projYY

/--
`value.to_int_unchecked::<usize>()`: truncates toward zero; undefined
behaviour (modelled as `none`) when the truncated value does not fit in
`usize`, i.e. unless `-1 < value < 2^64`.
-/
def toUsizeTrunc (q : ℚ) : Option ℕ :=
  if -1 < q ∧ q < (U64 : ℚ) then some (Int.toNat ⌊q⌋) else none

/--
Projection of one face vertex (src/render/mod.rs lines 270-272): inverse
depth `z`, then screen coordinates via the camera basis, each converted with
`to_int_unchecked::<usize>` (`none` = undefined behaviour of the conversion).
A vertex on the camera plane has a zero denominator: the source computes
`z = 1.0 / 0.0 = ±inf` and feeds `±inf`/`NaN` screen coordinates to
`to_int_unchecked` *before* any clip test runs — undefined behaviour, so
the zero-denominator case is `none` here (rational `1/0 = 0` would instead
fake a clean clip rejection).
-/
def projectVertex (C : Ctx) (pt : Vec3q) : Option (ℕ × ℕ × ℚ) :=
  if dotq pt C.dir - C.camLocDir = 0 then none
  else
    let z : ℚ := 1 / (dotq pt C.dir - C.camLocDir)
    match toUsizeTrunc ((dotq pt C.right - C.camLocRight) * z * C.projXMul + C.projXAdd),
          toUsizeTrunc ((dotq pt C.up - C.camLocUp) * z * C.projYMul + C.projYAdd) with
    | some px, some py => some (px, py, z)
    | _, _ => none

/-- Result of building the projected polygon of one face: undefined
behaviour, whole-face rejection by the clip test, or the polygon together
with the tracked bottom-vertex index. -/
inductive FaceResult where
  | ub : FaceResult
  | rejected : FaceResult
  | poly : List (ℕ × ℕ) → ℕ → FaceResult
deriving DecidableEq

/--
The vertex loop of `RenderContext::draw` (src/render/mod.rs lines 267-288):
walks the face's position indices, projects each vertex, rejects the whole
face if the projected point fails the clip test
(`px >= width || py >= height || z >= 1/near || z <= 1/far`), otherwise
pushes the pixel onto the polygon and tracks the vertex with the smallest
screen `y` (`bottom_y` starts at `usize::MAX`, `bottom_index` at `0`).
-/
def buildPoly (C : Ctx) (positions : List Vec3q) :
    List ℕ → List (ℕ × ℕ) → ℕ → ℕ → ℕ → FaceResult
  | [], acc, _, bi, _ => .poly acc bi
  | idx :: rest, acc, bottomY, bi, i =>
    match positions.get? idx with
    | none => .ub
    | some pt =>
      match projectVertex C pt with
      | none => .ub
      | some (px, py, z) =>
        if C.width ≤ px ∨ C.height ≤ py ∨ C.invNear ≤ z ∨ z ≤ C.invFar then
          .rejected
        else if py < bottomY then
          buildPoly C positions rest (acc ++ [(px, py)]) py i (i + 1)
        else
          buildPoly C positions rest (acc ++ [(px, py)]) bottomY bi (i + 1)

/-- Byte `i` of a little-endian `u32` (the source's
`std::mem::transmute::<u32, [u8; 4]>` on a little-endian target). -/
def byteAt (i c : ℕ) : ℕ := c / 256 ^ i % 256

/-- Reassemble a `u32` from its four little-endian bytes (the source's
`std::mem::transmute::<[u8; 4], u32>`). -/
def fromBytes (b0 b1 b2 b3 : ℕ) : ℕ := b0 + 256 * b1 + 65536 * b2 + 16777216 * b3

/-- Rust's `f32::clamp(lo, hi)`. -/
def qclamp (x lo hi : ℚ) : ℚ := min (max x lo) hi

/-- The per-face light scalar (src/render/mod.rs line 248):
`(1.0 / (normal.x + normal.y + normal.z).clamp(0.1, 1.0)) as u8`.
The `as u8` cast saturates and truncates toward zero; the clamped sum lies
in `[1/10, 1]` so the scalar lies in `[1, 10]`. -/
def lightScalar (n : Vec3q) : ℕ :=
  (min 255 ⌊1 / qclamp (n.x + n.y + n.z) (1 / 10) 1⌋).toNat

/-- `let color = primitive.color << 8` (a `u32` shift, src/render/mod.rs
line 233). -/
def shiftColor (c : ℕ) : ℕ := c * 256 % U32

/-- The per-face colour (src/render/mod.rs lines 249-255): each of the four
bytes of the shifted colour is integer-divided by the light scalar. -/
def shade (c : ℕ) (n : Vec3q) : ℕ :=
  fromBytes (byteAt 0 c / lightScalar n) (byteAt 1 c / lightScalar n)
    (byteAt 2 c / lightScalar n) (byteAt 3 c / lightScalar n)

/-- Pixels written by one edge, tagged with the drawing colour. -/
def lineWrites (p q : ℕ × ℕ) (col : ℕ) : List ((ℤ × ℤ) × ℕ) :=
  (drawLinePixels p.1 p.2 q.1 q.2).map (fun xy => (xy, col))

/-- The `while fp < fpe` loop of `draw_polygon_border_unchecked`
(src/render/mod.rs lines 194-197): one line per consecutive vertex pair. -/
def consecLineWrites (col : ℕ) : List (ℕ × ℕ) → List ((ℤ × ℤ) × ℕ)
  | p :: q :: rest => lineWrites p q col ++ consecLineWrites col (q :: rest)
  | _ => []

/--
`RenderContext::draw_polygon_border_unchecked` (src/render/mod.rs lines
188-200): first the closing line from vertex `0` to vertex `len - 1`, then
one line per consecutive pair, then the sentinel pixel `0xFF000000` at the
bottom vertex.  On an empty polygon `polygon.len() - 1` wraps around to
`2^64 - 1` and the very first `fp.read()` / `fpe.read()` is out of bounds —
undefined behaviour, modelled as `none`; an out-of-range `bottom_index`
(`get_unchecked`) likewise.
-/
def borderWrites (poly : List (ℕ × ℕ)) (bi col : ℕ) : Option (List ((ℤ × ℤ) × ℕ)) :=
  match poly with
  | [] => none
  | p0 :: tail =>
    match (p0 :: tail).get? bi with
    | none => none
    | some pb =>
      some (lineWrites p0 ((p0 :: tail).getLastD (0, 0)) col ++
        consecLineWrites col (p0 :: tail) ++
        [(((pb.1 : ℤ), (pb.2 : ℤ)), 0xFF000000)])

/--
The face-walking loop of `RenderContext::draw` (src/render/mod.rs lines
244-296), producing the trace of pixel writes of the whole primitive.
Per face at cursor position `vc :: rest`: the face ends `vc + 2` slots after
its start (`face_end`); the normal is read at `normals[rest[0] + 1]` (note
the `+ 1` the source applies to the second header slot); the remaining `vc`
slots are position indices; whatever happens to the face (rejection
included), the cursor resumes at `face_end`, i.e. at `rest.drop (vc + 1)`.
Reading past the end of the index buffer (`face_end` beyond `index_end`,
possible when a `vertexCount` header is inaccurate) is an out-of-bounds read,
modelled as `none`.
-/
def drawFaces (C : Ctx) (positions normals : List Vec3q) (color : ℕ) :
    List ℕ → Option (List ((ℤ × ℤ) × ℕ))
  | [] => some []
  | vc :: rest =>
    if vc + 1 ≤ rest.length then
      match normals.get? (rest.headD 0 + 1) with
      | none => none
      | some n =>
        match buildPoly C positions ((rest.drop 1).take vc) [] (U64 - 1) 0 0 with
        | .ub => none
        | .rejected => drawFaces C positions normals color (rest.drop (vc + 1))
        | .poly q b =>
          match borderWrites q b (shade (shiftColor color) n) with
          | none => none
          | some ws =>
            match drawFaces C positions normals color (rest.drop (vc + 1)) with
            | none => none
            | some rws => some (ws ++ rws)
    else none
termination_by buf => buf.length
decreasing_by all_goals simp only [List.length_drop, List.length_cons]; omega

/--
Pure cursor arithmetic of the face decoder, kept separate from the drawing:
at each face it reads `vertexCount` from the first slot, the normal index
from the second, takes the next `vertexCount` slots as position indices and
resumes at the computed end offset.
-/
def faceWalk : List ℕ → List (ℕ × ℕ × List ℕ)
  | [] => []
  | vc :: rest => (vc, rest.headD 0, (rest.drop 1).take vc) :: faceWalk (rest.drop (vc + 1))
termination_by l => l.length
decreasing_by simp only [List.length_drop, List.length_cons]; omega

/-- Encoding of one face with an accurate `vertexCount` header: the two
header slots followed by the position indices. -/
def encodeFace (f : ℕ × List ℕ) : List ℕ := f.2.length :: f.1 :: f.2

/-- An index buffer holding the given faces back-to-back, every
`vertexCount` header accurate. -/
def encodeFaces (fs : List (ℕ × List ℕ)) : List ℕ := (fs.map encodeFace).flatten

/-- Processing of a single face by `RenderContext::draw`, from its two
decoded header slots and its position indices: a rejected face contributes
no writes, a drawn face contributes its border writes. -/
def drawOneFace (C : Ctx) (positions normals : List Vec3q) (color ni : ℕ)
    (ps : List ℕ) : Option (List ((ℤ × ℤ) × ℕ)) :=
  match normals.get? (ni + 1) with
  | none => none
  | some n =>
    match buildPoly C positions ps [] (U64 - 1) 0 0 with
    | .ub => none
    | .rejected => some []
    | .poly q b => borderWrites q b (shade (shiftColor color) n)

/-- `Render::start`'s frame clear (src/render/mod.rs lines 318-322):
`std::ptr::write_bytes(data.as_mut_ptr(), 0x00, data.len())` fills all
`data.len() * size_of::<u32>()` bytes of the pixel buffer with `0x00`,
i.e. sets every pixel to `0x00000000`. -/
def startClear (buf : List ℕ) : List ℕ := buf.map (fun _ => 0)

/-- Concrete camera/surface snapshot used for counterexamples and witnesses:
camera at the origin looking down `-z` with the canonical basis, `near = 1`,
`far = 100`, a `2 × 2` near-plane footprint and a square `100 × 100` target. -/
def ctxA : Ctx :=
  { right := ⟨1, 0, 0⟩, up := ⟨0, 1, 0⟩, dir := ⟨0, 0, -1⟩, loc := ⟨0, 0, 0⟩,
    near := 1, far := 100, sizeX := 2, sizeY := 2,
    extentX := 100, extentY := 100, width := 100, height := 100 }

/-- The camera/surface snapshot of `main` (src/main.rs): `Camera::new`'s
default pose (the `camera.set` call is commented out), `set_projection(0.05,
100.0, (0.1, 0.1))`, an `800 × 600` surface. -/
def ctxMain : Ctx :=
  { right := ⟨1, 0, 0⟩, up := ⟨0, 1, 0⟩, dir := ⟨0, 0, -1⟩, loc := ⟨0, 0, 1⟩,
    near := 1 / 20, far := 100, sizeX := 1 / 10, sizeY := 1 / 10,
    extentX := 800, extentY := 600, width := 800, height := 600 }

/-- The `triangle` primitive of `main` (src/main.rs lines 228-237):
positions. -/
def trianglePositions : List Vec3q :=
  [⟨0, 1, 0⟩, ⟨-433 / 500, -1 / 2, 0⟩, ⟨433 / 500, -1 / 2, 0⟩]

/-- The `triangle` primitive of `main` (src/main.rs lines 228-237): its
single normal. -/
def triangleNormals : List Vec3q := [⟨0, 0, 1⟩]

/-- Row-major 4x4 rational matrix, modelling the source's `Mat4x4f`
(the `math` module itself is not under src/). -/
structure Mat4q where
  m00 : ℚ
  m01 : ℚ
  m02 : ℚ
  m03 : ℚ
  m10 : ℚ
  m11 : ℚ
  m12 : ℚ
  m13 : ℚ
  m20 : ℚ
  m21 : ℚ
  m22 : ℚ
  m23 : ℚ
  m30 : ℚ
  m31 : ℚ
  m32 : ℚ
  m33 : ℚ
deriving DecidableEq

/-- Modelled from the spec: `Mat4x4::identity` of the missing `math`
module. -/
def Mat4q.identity : Mat4q :=
  ⟨1, 0, 0, 0, 0, 1, 0, 0, 0, 0, 1, 0, 0, 0, 0, 1⟩

/-- Modelled from the spec: the matrix-times-matrix composition of the
missing `math` module (standard row-major product; the claims settled with
it depend only on which matrices are multiplied, not on the entries). -/
def Mat4q.mul (A B : Mat4q) : Mat4q :=
  ⟨A.m00 * B.m00 + A.m01 * B.m10 + A.m02 * B.m20 + A.m03 * B.m30,
   A.m00 * B.m01 + A.m01 * B.m11 + A.m02 * B.m21 + A.m03 * B.m31,
   A.m00 * B.m02 + A.m01 * B.m12 + A.m02 * B.m22 + A.m03 * B.m32,
   A.m00 * B.m03 + A.m01 * B.m13 + A.m02 * B.m23 + A.m03 * B.m33,
   A.m10 * B.m00 + A.m11 * B.m10 + A.m12 * B.m20 + A.m13 * B.m30,
   A.m10 * B.m01 + A.m11 * B.m11 + A.m12 * B.m21 + A.m13 * B.m31,
   A.m10 * B.m02 + A.m11 * B.m12 + A.m12 * B.m22 + A.m13 * B.m32,
   A.m10 * B.m03 + A.m11 * B.m13 + A.m12 * B.m23 + A.m13 * B.m33,
   A.m20 * B.m00 + A.m21 * B.m10 + A.m22 * B.m20 + A.m23 * B.m30,
   A.m20 * B.m01 + A.m21 * B.m11 + A.m22 * B.m21 + A.m23 * B.m31,
   A.m20 * B.m02 + A.m21 * B.m12 + A.m22 * B.m22 + A.m23 * B.m32,
   A.m20 * B.m03 + A.m21 * B.m13 + A.m22 * B.m23 + A.m23 * B.m33,
   A.m30 * B.m00 + A.m31 * B.m10 + A.m32 * B.m20 + A.m33 * B.m30,
   A.m30 * B.m01 + A.m31 * B.m11 + A.m32 * B.m21 + A.m33 * B.m31,
   A.m30 * B.m02 + A.m31 * B.m12 + A.m32 * B.m22 + A.m33 * B.m32,
   A.m30 * B.m03 + A.m31 * B.m13 + A.m32 * B.m23 + A.m33 * B.m33⟩

/-- Modelled from the spec: `Mat4x4::projection_frustum(l, r, b, t, n, f)`
of the missing `math` module — a standard asymmetric perspective frustum
producing clip-space depth in `(0, 1)` after the divide.  The claims
settled with it depend only on the arguments it is recomputed with, not on
its entries. -/
def Mat4q.projectionFrustum (l r b t n f : ℚ) : Mat4q :=
  ⟨2 * n / (r - l), 0, 0, 0,
   0, 2 * n / (t - b), 0, 0,
   (r + l) / (r - l), (t + b) / (t - b), f / (f - n), 1,
   0, 0, -(f * n) / (f - n), 0⟩

/-- The source's `Camera` (src/render/mod.rs lines 26-34): pose snapshot
(`CameraLocation`), projection parameters (`CameraProjection`), the three
cached matrices and the last-known target extent. -/
structure CameraQ where
  locDirection : Vec3q
  locRight : Vec3q
  locUp : Vec3q
  locLocation : Vec3q
  locAt : Vec3q
  sizeX : ℚ
  sizeY : ℚ
  near : ℚ
  far : ℚ
  viewMatrix : Mat4q
  projectionMatrix : Mat4q
  viewProjectionMatrix : Mat4q
  extentX : ℕ
  extentY : ℕ
deriving DecidableEq

/-- The aspect-corrected projection matrix `Camera::resize` computes for a
new extent `(nx, ny)` (src/render/mod.rs lines 109-115): the configured
`size` footprint is stretched along the longer screen axis, then fed to
`projection_frustum` as symmetric half-extents. -/
def CameraQ.projectionFor (c : CameraQ) (nx ny : ℕ) : Mat4q :=
  let pex := c.sizeX * (if nx > ny then (nx : ℚ) / (ny : ℚ) else 1)
  let pey := c.sizeY * (if nx > ny then 1 else (ny : ℚ) / (nx : ℚ))
  Mat4q.projectionFrustum (-pex / 2) (pex / 2) (-pey / 2) (pey / 2) c.near c.far

/-- `Camera::resize` (src/render/mod.rs lines 103-117): early-returns when
the stored extent already equals the new one, otherwise stores the new
extent and recomputes the projection and view-projection matrices. -/
def CameraQ.resize (c : CameraQ) (nx ny : ℕ) : CameraQ :=
  if c.extentX = nx ∧ c.extentY = ny then c
  else
    { c with extentX := nx, extentY := ny,
             projectionMatrix := c.projectionFor nx ny,
             viewProjectionMatrix := c.viewMatrix.mul (c.projectionFor nx ny) }

/-- `Camera::set_projection` (src/render/mod.rs lines 88-101): stores the
new projection parameters, then recomputes the projection matrix under the
current extent and the view-projection matrix. -/
def CameraQ.setProjection (c : CameraQ) (near far sizeX sizeY : ℚ) : CameraQ :=
  let c1 := { c with near := near, far := far, sizeX := sizeX, sizeY := sizeY }
  { c1 with projectionMatrix := c1.projectionFor c1.extentX c1.extentY,
            viewProjectionMatrix := c1.viewMatrix.mul (c1.projectionFor c1.extentX c1.extentY) }

/-- `Camera::set` (src/render/mod.rs lines 66-78): builds the view matrix,
extracts the right/up/direction basis from its columns (direction negated),
stores the pose and recomputes the view-projection matrix.  `Mat4x4::view`
lives in the missing `math` module and its normalisation is irrational, so
it is passed in as a parameter `viewOf`; the claims settled here hold for
every such function. -/
def CameraQ.set (viewOf : Vec3q → Vec3q → Vec3q → Mat4q) (c : CameraQ)
    (location atPt approxUp : Vec3q) : CameraQ :=
  let view := viewOf location atPt approxUp
  { c with
    locRight := ⟨view.m00, view.m10, view.m20⟩,
    locUp := ⟨view.m01, view.m11, view.m21⟩,
    locDirection := ⟨-view.m02, -view.m12, -view.m22⟩,
    locLocation := location,
    locAt := atPt,
    viewMatrix := view,
    viewProjectionMatrix := view.mul c.projectionMatrix }

/-- `Camera::new` (src/render/mod.rs lines 37-64): the default camera, then
`resize((800, 600))`, then `set_projection(0.05, 100.0, (0.1, 0.1))`. -/
def CameraQ.new : CameraQ :=
  (({ locDirection := ⟨0, 0, -1⟩, locRight := ⟨1, 0, 0⟩, locUp := ⟨0, 1, 0⟩,
      locLocation := ⟨0, 0, 1⟩, locAt := ⟨0, 0, 0⟩,
      sizeX := 1, sizeY := 1, near := 1, far := 100,
      viewMatrix := Mat4q.identity, projectionMatrix := Mat4q.identity,
      viewProjectionMatrix := Mat4q.identity,
      extentX := 0, extentY := 0 } : CameraQ).resize 800 600).setProjection
    (1 / 20) 100 (1 / 10) (1 / 10)

/-- Camera states reachable through the public interface: `Camera::new`
followed by any sequence of the mutators `set`, `set_projection` and
`resize` (the only operations that touch the cached matrices). -/
inductive CameraQ.Reachable : CameraQ → Prop where
  | new : CameraQ.Reachable CameraQ.new
  | set : ∀ (c : CameraQ) (viewOf : Vec3q → Vec3q → Vec3q → Mat4q)
      (location atPt approxUp : Vec3q),
      CameraQ.Reachable c → CameraQ.Reachable (c.set viewOf location atPt approxUp)
  | setProjection : ∀ (c : CameraQ) (near far sizeX sizeY : ℚ),
      CameraQ.Reachable c → CameraQ.Reachable (c.setProjection near far sizeX sizeY)
  | resize : ∀ (c : CameraQ) (nx ny : ℕ),
      CameraQ.Reachable c → CameraQ.Reachable (c.resize nx ny)

/-- `Render::start` (src/render/mod.rs lines 316-331): clears the target
surface, resizes the camera to the surface extent and only then hands out
the drawing context — so every pixel is cleared before any draw call of the
frame. -/
def renderStart (c : CameraQ) (buf : List ℕ) (nx ny : ℕ) : CameraQ × List ℕ :=
  (c.resize nx ny, startClear buf)
theorem lineStepsX_length (ie ine : ℕ) (sx sy : ℤ) :
    ∀ (d : ℕ) (x y : ℤ) (f : ℕ), (lineStepsX ie ine sx sy d x y f).length = d := by
  intro d
  induction d with
  | zero => intro x y f; rfl
  | succ n ih =>
    intro x y f
    by_cases h : signBitClear f <;> simp [lineStepsX, h, ih]

theorem lineStepsY_length (ie ine : ℕ) (sx sy : ℤ) :
    ∀ (d : ℕ) (x y : ℤ) (f : ℕ), (lineStepsY ie ine sx sy d x y f).length = d := by
  intro d
  induction d with
  | zero => intro x y f; rfl
  | succ n ih =>
    intro x y f
    by_cases h : signBitClear f <;> simp [lineStepsY, h, ih]

theorem drawLinePixels_length (x1 y1 x2 y2 : ℕ) :
    (drawLinePixels x1 y1 x2 y2).length =
      max (if x2 < x1 then x1 - x2 else x2 - x1)
          (if y2 < y1 then y1 - y2 else y2 - y1) + 1 := by
  unfold drawLinePixels
  by_cases h : (if y2 < y1 then y1 - y2 else y2 - y1) ≤
      (if x2 < x1 then x1 - x2 else x2 - x1) <;>
    simp [h, lineStepsX_length, lineStepsY_length] <;> omega

/-- Claim C3, counterexample: the perfectly diagonal line from `(0,0)` to
`(1,1)` writes the pixels `(0,0)` and `(1,0)` only — the second endpoint
`(1,1)` is never written, because `draw_line_unchecked` advances the minor
axis only *after* writing the pixel of the current major-axis step. -/
theorem C3_counterexample_diagonal_misses_endpoint :
    drawLinePixels 0 0 1 1 = [(0, 0), (1, 0)] ∧
      ((1 : ℤ), (1 : ℤ)) ∉ drawLinePixels 0 0 1 1 := by
  decide

/-- Claim C3 (amended): for every pair of endpoints the line rasterizer
writes the first endpoint `(x1,y1)` (it is the very first pixel written),
and writes exactly one pixel per step along the major axis,
`max (|x2-x1|) (|y2-y1|) + 1` pixels in total; the second endpoint is not
always among them. -/
theorem C3_line_first_endpoint_and_step_count (x1 y1 x2 y2 : ℕ) :
    ((x1 : ℤ), (y1 : ℤ)) ∈ drawLinePixels x1 y1 x2 y2 ∧
      (drawLinePixels x1 y1 x2 y2).length =
        max (if x2 < x1 then x1 - x2 else x2 - x1)
            (if y2 < y1 then y1 - y2 else y2 - y1) + 1 := by
  refine ⟨?_, drawLinePixels_length x1 y1 x2 y2⟩
  unfold drawLinePixels
  by_cases h : (if y2 < y1 then y1 - y2 else y2 - y1) ≤
      (if x2 < x1 then x1 - x2 else x2 - x1) <;> simp [h]

/-- Claim C4, counterexample: drawing from `(0,0)` to `(1,1)` touches the
pixel set `{(0,0), (1,0)}` while drawing from `(1,1)` to `(0,0)` touches
`{(1,1), (0,1)}` — the two sets are not identical (they are even disjoint). -/
theorem C4_counterexample_reversed_line_differs :
    drawLinePixels 0 0 1 1 = [(0, 0), (1, 0)] ∧
      drawLinePixels 1 1 0 0 = [(1, 1), (0, 1)] ∧
      ((0 : ℤ), (0 : ℤ)) ∈ drawLinePixels 0 0 1 1 ∧
      ((0 : ℤ), (0 : ℤ)) ∉ drawLinePixels 1 1 0 0 := by
  decide

/-- Claim C4 (amended): drawing a line from `(x1,y1)` to `(x2,y2)` and from
`(x2,y2)` to `(x1,y1)` write the same number of pixels
(`max (|dx|) (|dy|) + 1` each, one per major-axis step), but not necessarily
the identical set of pixels. -/
theorem C4_line_reversal_same_pixel_count (x1 y1 x2 y2 : ℕ) :
    (drawLinePixels x1 y1 x2 y2).length = (drawLinePixels x2 y2 x1 y1).length := by
  rw [drawLinePixels_length, drawLinePixels_length]
  split_ifs <;> omega


theorem faceWalk_encode (fs : List (ℕ × List ℕ)) :
    faceWalk (encodeFaces fs) = fs.map (fun f => (f.2.length, f.1, f.2)) := by
  induction fs with
  | nil => simp [encodeFaces, faceWalk]
  | cons f t ih =>
    obtain ⟨ni, ps⟩ := f
    have hbuf : encodeFaces ((ni, ps) :: t) = ps.length :: (ni :: (ps ++ encodeFaces t)) := by
      simp [encodeFaces, encodeFace]
    rw [hbuf, faceWalk]
    have h2 : ((ni :: (ps ++ encodeFaces t)).drop 1).take ps.length = ps := by
      simpa using List.take_left ps (encodeFaces t)
    have h3 : (ni :: (ps ++ encodeFaces t)).drop (ps.length + 1) = encodeFaces t := by
      simpa using List.drop_left ps (encodeFaces t)
    rw [List.headD_cons, h2, h3, ih]
    rfl

theorem drawFaces_encode_cons (C : Ctx) (positions normals : List Vec3q)
    (color ni : ℕ) (ps rest : List ℕ) :
    drawFaces C positions normals color (encodeFace (ni, ps) ++ rest) =
      (match drawOneFace C positions normals color ni ps with
       | none => none
       | some ws =>
         match drawFaces C positions normals color rest with
         | none => none
         | some rws => some (ws ++ rws)) := by
  have hbuf : encodeFace (ni, ps) ++ rest = ps.length :: (ni :: (ps ++ rest)) := by
    simp [encodeFace]
  have hlen : ps.length + 1 ≤ (ni :: (ps ++ rest)).length := by
    simp
  have h2 : ((ni :: (ps ++ rest)).drop 1).take ps.length = ps := by
    simpa using List.take_left ps rest
  have h3 : (ni :: (ps ++ rest)).drop (ps.length + 1) = rest := by
    simpa using List.drop_left ps rest
  rw [hbuf, drawFaces, if_pos hlen, h2, h3, List.headD_cons]
  unfold drawOneFace
  rcases hn : normals.get? (ni + 1) with _ | n
  · rfl
  · rcases hb : buildPoly C positions ps [] (U64 - 1) 0 0 with _ | _ | ⟨q, b⟩
    · rfl
    · cases drawFaces C positions normals color rest <;> simp
    · rcases hw : borderWrites q b (shade (shiftColor color) n) with _ | ws
      · rfl
      · cases drawFaces C positions normals color rest <;> simp

/-- Claim C5: with accurate `vertexCount` headers the face decoder consumes
exactly `vertexCount + 2` slots per face — it reads the normal index from
the second slot, takes exactly the `vertexCount` following slots as that
face's position indices, and resumes at the computed end offset with no
index drift; and `RenderContext::draw` processes an encoded face buffer
face by face on exactly that decomposition, faces rejected by clipping
included (a rejected face contributes no writes and the cursor still
resumes at the next face's header). -/
theorem C5_face_decoder_no_drift (C : Ctx) (positions normals : List Vec3q)
    (color : ℕ) (fs : List (ℕ × List ℕ)) (ni : ℕ) (ps rest : List ℕ) :
    faceWalk (encodeFaces fs) = fs.map (fun f => (f.2.length, f.1, f.2)) ∧
    drawFaces C positions normals color (encodeFace (ni, ps) ++ rest) =
      (match drawOneFace C positions normals color ni ps with
       | none => none
       | some ws =>
         match drawFaces C positions normals color rest with
         | none => none
         | some rws => some (ws ++ rws)) :=
  ⟨faceWalk_encode fs, drawFaces_encode_cons C positions normals color ni ps rest⟩

/-- Claim C1 (code bug): the decoder does read `vertexCount` from the first
header slot, but the normal is fetched at `normals[normalIndex + 1]`, not at
`normals[normalIndex]` — an offset of one *is* applied (src/render/mod.rs
line 247).  On the `triangle` primitive of `main` (indices `[3,0,0,1,2]`,
a single normal, `normalIndex = 0`) the element the header names exists at
index `0`, yet the draw call reads index `1`, past the end of the normal
list: undefined behaviour on the repository's own data. -/
theorem C1_normal_read_offset_bug :
    triangleNormals.get? 0 = some ⟨0, 0, 1⟩ ∧
    triangleNormals.get? (0 + 1) = none ∧
    drawFaces ctxMain trianglePositions triangleNormals 65280 [3, 0, 0, 1, 2] = none := by
  refine ⟨rfl, rfl, ?_⟩
  rw [drawFaces]
  simp [triangleNormals]

theorem projectVertex_ctxA_right_out : projectVertex ctxA ⟨3, 0, -2⟩ = some (125, 50, 1 / 2) := by
  norm_num [projectVertex, toUsizeTrunc, dotq, ctxA, Ctx.camLocRight, Ctx.camLocUp,
    Ctx.camLocDir, Ctx.projXMul, Ctx.projXAdd, Ctx.projYMul, Ctx.projYAdd,
    Ctx.projXX, Ctx.projYY, Ctx.extMin, U64]
  omega

theorem projectVertex_ctxA_negative : projectVertex ctxA ⟨-3, 0, -2⟩ = none := by
  norm_num [projectVertex, toUsizeTrunc, dotq, ctxA, Ctx.camLocRight, Ctx.camLocUp,
    Ctx.camLocDir, Ctx.projXMul, Ctx.projXAdd, Ctx.projYMul, Ctx.projYAdd,
    Ctx.projXX, Ctx.projYY, Ctx.extMin, U64]

theorem projectVertex_ctxA_center : projectVertex ctxA ⟨0, 0, -2⟩ = some (50, 50, 1 / 2) := by
  norm_num [projectVertex, toUsizeTrunc, dotq, ctxA, Ctx.camLocRight, Ctx.camLocUp,
    Ctx.camLocDir, Ctx.projXMul, Ctx.projXAdd, Ctx.projYMul, Ctx.projYAdd,
    Ctx.projXX, Ctx.projYY, Ctx.extMin, U64]
  omega

theorem buildPoly_ctxA_rejected :
    buildPoly ctxA [⟨3, 0, -2⟩] [0] [] (U64 - 1) 0 0 = .rejected := by
  rw [buildPoly]
  simp only [List.get?_cons_zero]
  rw [projectVertex_ctxA_right_out]
  norm_num [ctxA, Ctx.invNear, Ctx.invFar]

theorem buildPoly_ctxA_ub :
    buildPoly ctxA [⟨-3, 0, -2⟩] [0] [] (U64 - 1) 0 0 = .ub := by
  rw [buildPoly]
  simp only [List.get?_cons_zero]
  rw [projectVertex_ctxA_negative]

theorem buildPoly_ctxA_center :
    buildPoly ctxA [⟨0, 0, -2⟩] [0] [] (U64 - 1) 0 0 = .poly [(50, 50)] 0 := by
  rw [buildPoly]
  simp only [List.get?_cons_zero]
  rw [projectVertex_ctxA_center]
  norm_num [ctxA, Ctx.invNear, Ctx.invFar, U64]
  rw [buildPoly]

/-- Claim C2, counterexample: a vertex may project to a screen coordinate
outside `[0, width)` on the *negative* side; there the face is not cleanly
rejected — `to_int_unchecked::<usize>` on the negative coordinate is
undefined behaviour (the conversion happens *before* the clip test), so
nothing guarantees that no pixel is written and that drawing continues.
Concretely, the single-face primitive `[1, 0, 0]` over the position
`(-3, 0, -2)` projects to screen `x = -25 < 0` and the draw is undefined
(`none`), not a silent rejection (`some []`). -/
theorem C2_counterexample_negative_screen_coordinate :
    projectVertex ctxA ⟨-3, 0, -2⟩ = none ∧
    drawFaces ctxA [⟨-3, 0, -2⟩] [⟨0, 0, 1⟩, ⟨0, 0, 1⟩] 255 [1, 0, 0] = none ∧
    (dotq ⟨-3, 0, -2⟩ ctxA.right - ctxA.camLocRight) *
        (1 / (dotq ⟨-3, 0, -2⟩ ctxA.dir - ctxA.camLocDir)) * ctxA.projXMul +
        ctxA.projXAdd < 0 := by
  refine ⟨projectVertex_ctxA_negative, ?_, ?_⟩
  · rw [drawFaces]
    simp [buildPoly_ctxA_ub]
  · norm_num [dotq, ctxA, Ctx.camLocRight, Ctx.camLocDir, Ctx.projXMul,
      Ctx.projXAdd, Ctx.projXX, Ctx.extMin]

theorem buildPoly_rejected_at (C : Ctx) (positions : List Vec3q) :
    ∀ (k : ℕ) (ps : List ℕ) (acc : List (ℕ × ℕ)) (bY bi i : ℕ)
      (idx : ℕ) (pt : Vec3q) (px py : ℕ) (z : ℚ),
      ps.get? k = some idx →
      positions.get? idx = some pt →
      projectVertex C pt = some (px, py, z) →
      (C.width ≤ px ∨ C.height ≤ py ∨ C.invNear ≤ z ∨ z ≤ C.invFar) →
      (∀ j < k, ∃ idx2 pt2 px2 py2 z2,
        ps.get? j = some idx2 ∧ positions.get? idx2 = some pt2 ∧
        projectVertex C pt2 = some (px2, py2, z2) ∧
        ¬(C.width ≤ px2 ∨ C.height ≤ py2 ∨ C.invNear ≤ z2 ∨ z2 ≤ C.invFar)) →
      buildPoly C positions ps acc bY bi i = .rejected := by
  intro k
  induction k with
  | zero =>
    intro ps acc bY bi i idx pt px py z hk hpos hproj hfail hacc
    cases ps with
    | nil => cases hk
    | cons idx0 more =>
      rw [List.get?_cons_zero] at hk
      injection hk with hk
      subst hk
      rw [buildPoly]
      simp only [hpos, hproj]
      rw [if_pos hfail]
  | succ k ih =>
    intro ps acc bY bi i idx pt px py z hk hpos hproj hfail hacc
    cases ps with
    | nil => cases hk
    | cons idx0 more =>
      obtain ⟨idx2, pt2, px2, py2, z2, hj0, hjpos, hjproj, hjok⟩ :=
        hacc 0 (Nat.succ_pos k)
      rw [List.get?_cons_zero] at hj0
      injection hj0 with hj0
      subst hj0
      rw [List.get?_cons_succ] at hk
      have hacc2 : ∀ j < k, ∃ idx3 pt3 px3 py3 z3,
          more.get? j = some idx3 ∧ positions.get? idx3 = some pt3 ∧
          projectVertex C pt3 = some (px3, py3, z3) ∧
          ¬(C.width ≤ px3 ∨ C.height ≤ py3 ∨ C.invNear ≤ z3 ∨ z3 ≤ C.invFar) := by
        intro j hj
        obtain ⟨idx3, pt3, px3, py3, z3, ha, hb, hc, hd⟩ := hacc (j + 1) (by omega)
        rw [List.get?_cons_succ] at ha
        exact ⟨idx3, pt3, px3, py3, z3, ha, hb, hc, hd⟩
      rw [buildPoly]
      simp only [hjpos, hjproj]
      rw [if_neg hjok]
      by_cases hb2 : py2 < bY
      · rw [if_pos hb2]
        exact ih more _ _ _ _ idx pt px py z hk hpos hproj hfail hacc2
      · rw [if_neg hb2]
        exact ih more _ _ _ _ idx pt px py z hk hpos hproj hfail hacc2

/-- Claim C2 (amended): under the screen-space strategy, when some vertex of
a face *converts cleanly* (its projected coordinates truncate into `usize`)
but fails the clip test — its screen coordinates land outside
`[0,width) × [0,height)` on the high side or its inverse depth lies outside
the open interval `(1/far, 1/near)` — while every earlier vertex of the face
was accepted (converted cleanly and passed the clip test), the whole face is
rejected: the face contributes no pixel writes, no error is reported, and
drawing continues with the subsequent faces exactly as if the face were
absent.  (For a vertex whose projection does not convert cleanly — a
negative screen coordinate, or a zero denominator giving `±inf` — the
conversion itself is undefined behaviour before the clip test runs, so
clean rejection is not guaranteed there; see the counterexample.) -/
theorem C2_face_clip_rejection (C : Ctx) (positions normals : List Vec3q)
    (color ni k idx : ℕ) (ps rest : List ℕ) (pt : Vec3q) (px py : ℕ)
    (z : ℚ) (n : Vec3q) :
    (ps.get? k = some idx →
      positions.get? idx = some pt →
      projectVertex C pt = some (px, py, z) →
      (C.width ≤ px ∨ C.height ≤ py ∨ C.invNear ≤ z ∨ z ≤ C.invFar) →
      (∀ j < k, ∃ idx2 pt2 px2 py2 z2,
        ps.get? j = some idx2 ∧ positions.get? idx2 = some pt2 ∧
        projectVertex C pt2 = some (px2, py2, z2) ∧
        ¬(C.width ≤ px2 ∨ C.height ≤ py2 ∨ C.invNear ≤ z2 ∨ z2 ≤ C.invFar)) →
      buildPoly C positions ps [] (U64 - 1) 0 0 = .rejected) ∧
    (normals.get? (ni + 1) = some n →
      buildPoly C positions ps [] (U64 - 1) 0 0 = .rejected →
      drawFaces C positions normals color (encodeFace (ni, ps) ++ rest) =
        drawFaces C positions normals color rest) := by
  constructor
  · intro h1 h2 h3 h4 h5
    exact buildPoly_rejected_at C positions k ps [] (U64 - 1) 0 0 idx pt px py z
      h1 h2 h3 h4 h5
  · intro hn hb
    rw [drawFaces_encode_cons]
    unfold drawOneFace
    rw [hn, hb]
    cases drawFaces C positions normals color rest <;> simp

theorem ctxA_pair_first_vertex_accepted :
    ∀ j < 1, ∃ idx2 pt2 px2 py2 z2,
      ([0, 1] : List ℕ).get? j = some idx2 ∧
      ([⟨0, 0, -2⟩, ⟨3, 0, -2⟩] : List Vec3q).get? idx2 = some pt2 ∧
      projectVertex ctxA pt2 = some (px2, py2, z2) ∧
      ¬(ctxA.width ≤ px2 ∨ ctxA.height ≤ py2 ∨ ctxA.invNear ≤ z2 ∨ z2 ≤ ctxA.invFar) := by
  intro j hj
  have hj0 : j = 0 := by omega
  subst hj0
  refine ⟨0, ⟨0, 0, -2⟩, 50, 50, 1 / 2, rfl, rfl, projectVertex_ctxA_center, ?_⟩
  norm_num [ctxA, Ctx.invNear, Ctx.invFar]

/-- Claim C2, witness: in the two-vertex face `[0, 1]` over the positions
`(0, 0, -2)` (accepted: screen `(50, 50)`, in bounds) and `(3, 0, -2)`
(converts cleanly to screen `x = 125`, outside the `100`-pixel-wide
buffer), the clip failure at the *second* vertex — after the first was
already accepted and pushed — rejects the whole face, and drawing the
one-face primitive equals drawing the empty remainder. -/
theorem C2_face_clip_rejection_witness :
    buildPoly ctxA [⟨0, 0, -2⟩, ⟨3, 0, -2⟩] [0, 1] [] (U64 - 1) 0 0 = .rejected ∧
    drawFaces ctxA [⟨0, 0, -2⟩, ⟨3, 0, -2⟩] [⟨0, 0, 1⟩, ⟨0, 0, 1⟩] 255
        (encodeFace (0, [0, 1]) ++ []) =
      drawFaces ctxA [⟨0, 0, -2⟩, ⟨3, 0, -2⟩] [⟨0, 0, 1⟩, ⟨0, 0, 1⟩] 255 [] := by
  have h := C2_face_clip_rejection ctxA [⟨0, 0, -2⟩, ⟨3, 0, -2⟩]
    [⟨0, 0, 1⟩, ⟨0, 0, 1⟩] 255 0 1 1 [0, 1] [] ⟨3, 0, -2⟩ 125 50 (1 / 2) ⟨0, 0, 1⟩
  have hrej := h.1 rfl rfl projectVertex_ctxA_right_out (Or.inl (by simp [ctxA]))
    ctxA_pair_first_vertex_accepted
  exact ⟨hrej, h.2 rfl hrej⟩

theorem consecLineWrites_color (col : ℕ) :
    ∀ (l : List (ℕ × ℕ)) (w : (ℤ × ℤ) × ℕ), w ∈ consecLineWrites col l → w.2 = col := by
  intro l
  induction l with
  | nil => intro w hw; simp [consecLineWrites] at hw
  | cons p t ih =>
    intro w hw
    cases t with
    | nil => simp [consecLineWrites] at hw
    | cons q r =>
      rw [consecLineWrites] at hw
      rcases List.mem_append.1 hw with h | h
      · rcases (by simpa [lineWrites] using h :
            ∃ a b, ((a : ℤ), (b : ℤ)) ∈ drawLinePixels p.1 p.2 q.1 q.2 ∧ ((a, b), col) = w)
          with ⟨a, b, _, rfl⟩
        rfl
      · exact ih w h

theorem borderWrites_colors (poly : List (ℕ × ℕ)) (bi col : ℕ)
    (ws : List ((ℤ × ℤ) × ℕ)) (h : borderWrites poly bi col = some ws) :
    ∀ w ∈ ws, w.2 = col ∨ w.2 = 0xFF000000 := by
  cases poly with
  | nil => simp [borderWrites] at h
  | cons p0 tail =>
    rw [borderWrites] at h
    rcases hg : (p0 :: tail).get? bi with _ | pb
    · rw [hg] at h; cases h
    · rw [hg] at h
      injection h with h
      subst h
      intro w hw
      rcases List.mem_append.1 hw with h1 | h1
      · rcases List.mem_append.1 h1 with h2 | h2
        · rcases (by simpa [lineWrites] using h2 :
              ∃ a b, ((a : ℤ), (b : ℤ)) ∈ drawLinePixels p0.1 p0.2
                  ((p0 :: tail).getLast?.getD (0, 0)).1 ((p0 :: tail).getLast?.getD (0, 0)).2 ∧
                ((a, b), col) = w)
            with ⟨a, b, _, rfl⟩
          exact Or.inl rfl
        · exact Or.inl (consecLineWrites_color col _ w h2)
      · rcases List.mem_singleton.1 h1 with rfl
        exact Or.inr rfl

/-- Claim C9: the per-face shading scalar is the (`u8`-cast of)
`1 / clamp(normal.x + normal.y + normal.z, 0.1, 1.0)` — a clamped component
sum, not a dot product with a light direction — and every pixel write a
drawn face produces carries either the face colour, whose four 8-bit
channels are the corresponding channels of the stored (shifted) face colour
each integer-divided by that scalar, or the fixed bottom-vertex sentinel
`0xFF000000`. -/
theorem C9_flat_shading_formula (C : Ctx) (positions normals : List Vec3q)
    (color ni : ℕ) (ps : List ℕ) (n : Vec3q) (q : List (ℕ × ℕ)) (b : ℕ)
    (ws : List ((ℤ × ℤ) × ℕ)) :
    (normals.get? (ni + 1) = some n →
      buildPoly C positions ps [] (U64 - 1) 0 0 = .poly q b →
      borderWrites q b (shade (shiftColor color) n) = some ws →
      ∀ w ∈ ws, w.2 = shade (shiftColor color) n ∨ w.2 = 0xFF000000) ∧
    lightScalar n = (min 255 ⌊1 / qclamp (n.x + n.y + n.z) (1 / 10) 1⌋).toNat ∧
    shade (shiftColor color) n =
      fromBytes (byteAt 0 (color * 256 % U32) / lightScalar n)
        (byteAt 1 (color * 256 % U32) / lightScalar n)
        (byteAt 2 (color * 256 % U32) / lightScalar n)
        (byteAt 3 (color * 256 % U32) / lightScalar n) :=
  ⟨fun _ _ hw => borderWrites_colors _ _ _ _ hw, rfl, rfl⟩

theorem drawLinePixels_point : drawLinePixels 50 50 50 50 = [(50, 50)] := by
  decide

theorem lightScalar_half : lightScalar ⟨0, 0, 1 / 2⟩ = 2 := by
  norm_num [lightScalar, qclamp]
  omega

theorem borderWrites_single (col : ℕ) :
    borderWrites [(50, 50)] 0 col = some [((50, 50), col), ((50, 50), 0xFF000000)] := by
  rw [borderWrites]
  simp [lineWrites, consecLineWrites, drawLinePixels_point]

/-- Claim C9, witness: the single-vertex face over `(0, 0, -2)` with normal
`(0, 0, 1/2)` is drawn; both its writes are the shaded face colour or the
sentinel. -/
theorem C9_flat_shading_formula_witness :
    ∀ w ∈ [(((50 : ℤ), (50 : ℤ)), shade (shiftColor 65280) ⟨0, 0, 1 / 2⟩),
           (((50 : ℤ), (50 : ℤ)), 0xFF000000)],
      w.2 = shade (shiftColor 65280) ⟨0, 0, 1 / 2⟩ ∨ w.2 = 0xFF000000 :=
  (C9_flat_shading_formula ctxA [⟨0, 0, -2⟩] [⟨0, 0, 1⟩, ⟨0, 0, 1 / 2⟩] 65280 0
    [0] ⟨0, 0, 1 / 2⟩ [(50, 50)] 0 _).1 rfl buildPoly_ctxA_center
    (borderWrites_single (shade (shiftColor 65280) ⟨0, 0, 1 / 2⟩))

theorem buildPoly_poly_spec (C : Ctx) (positions : List Vec3q) :
    ∀ (ps : List ℕ) (acc : List (ℕ × ℕ)) (bY bi i : ℕ) (q : List (ℕ × ℕ)) (b : ℕ),
      buildPoly C positions ps acc bY bi i = .poly q b →
      q.length = acc.length + ps.length ∧ (b = bi ∨ b < i + ps.length) := by
  intro ps
  induction ps with
  | nil =>
    intro acc bY bi i q b h
    rw [buildPoly] at h
    injection h with h1 h2
    subst h1
    subst h2
    simp
  | cons idx rest ih =>
    intro acc bY bi i q b h
    simp only [List.length_cons]
    rw [buildPoly] at h
    rcases hg : positions.get? idx with _ | pt
    · simp only [hg] at h; cases h
    · simp only [hg] at h
      rcases hp : projectVertex C pt with _ | ⟨px, py, z⟩
      · simp only [hp] at h; cases h
      · simp only [hp] at h
        by_cases hc : C.width ≤ px ∨ C.height ≤ py ∨ C.invNear ≤ z ∨ z ≤ C.invFar
        · rw [if_pos hc] at h; cases h
        · rw [if_neg hc] at h
          by_cases hb2 : py < bY
          · rw [if_pos hb2] at h
            obtain ⟨hl, hbi⟩ := ih (acc ++ [(px, py)]) py i (i + 1) q b h
            simp only [List.length_append, List.length_cons, List.length_nil] at hl
            constructor
            · omega
            · rcases hbi with h1 | h1 <;> right <;> omega
          · rw [if_neg hb2] at h
            obtain ⟨hl, hbi⟩ := ih (acc ++ [(px, py)]) bY bi (i + 1) q b h
            simp only [List.length_append, List.length_cons, List.length_nil] at hl
            constructor
            · omega
            · rcases hbi with h1 | h1
              · exact Or.inl h1
              · right; omega

theorem borderWrites_isSome (poly : List (ℕ × ℕ)) (bi col : ℕ)
    (h1 : poly ≠ []) (h2 : bi < poly.length) :
    ∃ ws, borderWrites poly bi col = some ws := by
  cases poly with
  | nil => exact absurd rfl h1
  | cons p0 tail =>
    rw [borderWrites]
    rcases hg : (p0 :: tail).get? bi with _ | pb
    · rw [List.get?_eq_none] at hg
      omega
    · exact ⟨_, rfl⟩

/-- Claim C10: a face with `vertexCount ≥ 1` that passes clipping yields a
nonempty projected polygon whose border-drawing accesses are all in bounds
(the bottom index tracked by the vertex loop stays below the polygon
length, so `draw_polygon_border_unchecked` succeeds); but a face whose
`vertexCount` header is `0` is not rejected — the vertex loop never runs,
so no clip test fires — and reaches the border-drawing routine with an
empty polygon, where `polygon.len() - 1` underflows to `2^64 - 1`
(`wsub 0 1`) and the first read is out of bounds: the draw is undefined
behaviour. -/
theorem C10_border_access_bounds_and_empty_polygon_ub (C : Ctx)
    (positions normals : List Vec3q) (color ni col b : ℕ) (ps rest : List ℕ)
    (q : List (ℕ × ℕ)) (n : Vec3q) :
    (buildPoly C positions ps [] (U64 - 1) 0 0 = .poly q b → ps ≠ [] →
      ∃ ws, borderWrites q b col = some ws) ∧
    wsub 0 1 = U64 - 1 ∧
    borderWrites [] b col = none ∧
    (normals.get? (ni + 1) = some n →
      drawFaces C positions normals color (0 :: ni :: rest) = none) := by
  refine ⟨?_, by decide, rfl, ?_⟩
  · intro h hne
    obtain ⟨hl, hbi⟩ := buildPoly_poly_spec C positions ps [] (U64 - 1) 0 0 q b h
    have hps : 0 < ps.length := List.length_pos.2 hne
    apply borderWrites_isSome
    · intro hq
      rw [hq] at hl
      simp at hl
      omega
    · rcases hbi with h1 | h1 <;> omega
  · intro hn
    rw [drawFaces]
    rw [if_pos (by simp), List.headD_cons, hn]
    simp only [List.drop_one, List.tail_cons, List.take_zero]
    rw [buildPoly]
    rfl

/-- Claim C10, witness: the drawn single-vertex face gives a polygon whose
border accesses are in bounds, and the zero-vertex face `[0, 0]` over the
same scene is undefined behaviour. -/
theorem C10_border_access_bounds_witness :
    (∃ ws, borderWrites [(50, 50)] 0 17 = some ws) ∧
    drawFaces ctxA [⟨0, 0, -2⟩] [⟨0, 0, 1⟩, ⟨0, 0, 1⟩] 17 [0, 0] = none := by
  have h := C10_border_access_bounds_and_empty_polygon_ub ctxA [⟨0, 0, -2⟩]
    [⟨0, 0, 1⟩, ⟨0, 0, 1⟩] 17 0 17 0 [0] [] [(50, 50)] ⟨0, 0, 1⟩
  exact ⟨h.1 buildPoly_ctxA_center (by simp), h.2.2.2 rfl⟩

/-- Claim C6, counterexample: `Render::start` clears the surface by filling
it with `0x00` bytes, so a cleared pixel is `0x00000000` — every 8-bit
channel, the alpha channel included, is `0`, not forced opaque (`0xFF`). -/
theorem C6_counterexample_cleared_alpha_not_opaque :
    (renderStart CameraQ.new [0xABCDEF12] 800 600).2 = [0] ∧
    byteAt 3 0 = 0 ∧ byteAt 2 0 = 0 ∧ byteAt 1 0 = 0 ∧ byteAt 0 0 = 0 ∧
    byteAt 3 0 ≠ 0xFF ∧ byteAt 0 0 ≠ 0xFF := by
  refine ⟨rfl, ?_, ?_, ?_, ?_, ?_, ?_⟩ <;> decide

/-- Claim C6 (amended): at the start of every frame `Render::start` clears
every pixel of the target surface to `0x00000000` before any draw call (the
context is only handed out after the clear); the cleared pixels are
all-zero — transparent black, the alpha channel is `0`, not opaque. -/
theorem C6_clear_zeroes_every_pixel (c : CameraQ) (buf : List ℕ) (nx ny : ℕ) :
    (renderStart c buf nx ny).2 = List.replicate buf.length 0 ∧
    ((renderStart c buf nx ny).2).all (fun p => p = 0) = true := by
  constructor
  · show startClear buf = List.replicate buf.length 0
    induction buf with
    | nil => rfl
    | cons p t ih => simpa [startClear, List.replicate] using ih
  · show (startClear buf).all (fun p => p = 0) = true
    simp [startClear, List.all_eq_true]

/-- Claim C7: `Camera::resize` with the currently stored extent is a no-op
— it early-returns, performing no recomputation, and the camera (its
projection and view-projection matrices included) is bit-for-bit unchanged;
resize is idempotent; and with a different extent it recomputes both the
projection matrix (for the new aspect ratio) and the view-projection
matrix. -/
theorem C7_resize_noop_and_recompute (c : CameraQ) (nx ny : ℕ) :
    (c.extentX = nx ∧ c.extentY = ny → c.resize nx ny = c) ∧
    (c.resize nx ny).resize nx ny = c.resize nx ny ∧
    (¬(c.extentX = nx ∧ c.extentY = ny) →
      (c.resize nx ny).projectionMatrix = c.projectionFor nx ny ∧
      (c.resize nx ny).viewProjectionMatrix = c.viewMatrix.mul (c.projectionFor nx ny)) := by
  refine ⟨fun h => by rw [CameraQ.resize, if_pos h], ?_,
    fun h => by rw [CameraQ.resize, if_neg h]; exact ⟨rfl, rfl⟩⟩
  by_cases h : c.extentX = nx ∧ c.extentY = ny
  · have e : c.resize nx ny = c := by rw [CameraQ.resize, if_pos h]
    rw [e]
    exact e
  · have hx : (c.resize nx ny).extentX = nx ∧ (c.resize nx ny).extentY = ny := by
      rw [CameraQ.resize, if_neg h]
      exact ⟨rfl, rfl⟩
    nth_rewrite 1 [CameraQ.resize]
    rw [if_pos hx]

/-- Claim C7, witness: `Camera::new` holds extent `(800, 600)`; resizing to
`(800, 600)` returns it bit-for-bit unchanged, and resizing to `(400, 300)`
recomputes the projection matrix for the new extent. -/
theorem C7_resize_noop_and_recompute_witness :
    CameraQ.new.resize 800 600 = CameraQ.new ∧
    (CameraQ.new.resize 400 300).projectionMatrix = CameraQ.new.projectionFor 400 300 := by
  have h1 := (C7_resize_noop_and_recompute CameraQ.new 800 600).1
  have h2 := (C7_resize_noop_and_recompute CameraQ.new 400 300).2.2
  exact ⟨h1 ⟨rfl, rfl⟩,
    (h2 (by simp [show CameraQ.new.extentX = 800 from rfl])).1⟩

/-- Claim C8: every camera state reachable through the public interface
(`new` followed by any sequence of `set`, `set_projection`, `resize`)
satisfies the cache invariant: the stored view-projection matrix is exactly
the product of the stored view matrix and the stored projection matrix —
so the invariant holds before every draw. -/
theorem C8_view_projection_cached_invariant (c : CameraQ)
    (h : CameraQ.Reachable c) :
    c.viewProjectionMatrix = c.viewMatrix.mul c.projectionMatrix := by
  induction h with
  | new => rfl
  | set c' viewOf location atPt approxUp hr ih => rfl
  | setProjection c' near far sizeX sizeY hr ih => rfl
  | resize c' nx ny hr ih =>
    rw [CameraQ.resize]
    by_cases h : c'.extentX = nx ∧ c'.extentY = ny
    · rw [if_pos h]
      exact ih
    · rw [if_neg h]

/-- Claim C8, witness: the invariant at the freshly constructed camera. -/
theorem C8_view_projection_cached_invariant_witness :
    CameraQ.new.viewProjectionMatrix =
      CameraQ.new.viewMatrix.mul CameraQ.new.projectionMatrix :=
  C8_view_projection_cached_invariant CameraQ.new CameraQ.Reachable.new
